import Mathlib

/-!
Verification development for the tensornet sparse-table core.

Shallow embedding of:
- core/ps/optimizer/adam_kernel.h (SparseAdamValue: sizing, Adam update,
  stream serialization of optimizer records)
- core/ps/table/sparse_table.cc (SparseTable: SetHandle, Pull, Push,
  Save/Load paths, the background gradient-applier loop, and
  SparseTableRegistry)

Modelling conventions: C++ float32 values are modelled as rationals,
machine integers as Nat or Int, fatal CHECK failures as Option.none or an
explicit Bool flag, and the background applier thread as a labelled
transition system over an explicit state.
-/

namespace Tensornet

/-! ## SparseAdamValue sizing (adam_kernel.h lines 64-76) -/

/-- `SparseAdamValue::IsMiniDim(int dim)`: `if (2 > dim) return true; else return false;`. -/
def IsMiniDim (dim : ℤ) : Bool :=
  if 2 > dim then true else false

/-- `SparseAdamValue::DynSizeof(int dim)`:
`sizeof(SparseAdamValue) + sizeof(float) * dim * 3 * (IsMiniDim(dim) ? 0 : 1)`.
The fixed header size `sizeof(SparseAdamValue)` is platform dependent, so it is
a parameter; `sizeof(float)` is 4. -/
def DynSizeof (sizeofSparseAdamValue : ℤ) (dim : ℤ) : ℤ :=
  sizeofSparseAdamValue + 4 * dim * 3 * (if IsMiniDim dim then 0 else 1)

/-! ## SparseTable handle assignment (sparse_table.cc lines 46-50) -/

/-- The handle field of a `SparseTable` (`uint32_t handle_`, 0 when unset). -/
structure SparseTableHandleState where
  handle : ℕ
deriving DecidableEq

/-- `SparseTable::SetHandle(uint32_t handle)`:
`CHECK(handle_ == 0) << "sparse table handle has already set"; handle_ = handle;`.
`none` models the fatal CHECK failure. -/
def SetHandle (t : SparseTableHandleState) (h : ℕ) : Option SparseTableHandleState :=
  if t.handle = 0 then some ⟨h⟩ else none

/-! ## SparseTableRegistry (sparse_table.cc lines 140-157) -/

/-- `SparseTableRegistry::Register(SparseTable* table)`: under the lock,
`table_handle = tables_.size(); tables_.emplace_back(table); return table_handle;`.
Tables are abstracted by an arbitrary type. -/
def RegistryRegister {α : Type} (tables : List α) (t : α) : ℕ × List α :=
  (tables.length, tables ++ [t])

/-- `SparseTableRegistry::Get(uint32_t table_handle)`:
`CHECK(table_handle < tables_.size()); return tables_[table_handle];`.
`none` models the fatal out-of-range CHECK. -/
def RegistryGet {α : Type} (tables : List α) (h : ℕ) : Option α :=
  if hlt : h < tables.length then some (tables.get ⟨h, hlt⟩) else none

/-- Registering a batch of tables one after another (each via
`RegistryRegister`, as `CreateSparseTable` does); returns the final table
list and the handles in registration order. -/
def RegisterAll {α : Type} (tables : List α) : List α → List α × List ℕ
  | [] => (tables, [])
  | t :: rest =>
    let p := RegistryRegister tables t
    let q := RegisterAll p.2 rest
    (q.1, p.1 :: q.2)

/-! ## Save/Load file paths (sparse_table.cc lines 94-123) -/

/-- The file path computed by `SparseTable::Save`:
`filepath + "/sparse_table/" + std::to_string(GetHandle()) + "/rank_" + std::to_string(self_shard_id_)`. -/
def SaveFilePath (filepath : String) (handle : ℕ) (self_shard_id : ℕ) : String :=
  filepath ++ "/sparse_table/" ++ toString handle ++ "/rank_" ++ toString self_shard_id

/-- The file path computed by `SparseTable::Load`, written in the source as the
same expression as in `Save`. -/
def LoadFilePath (filepath : String) (handle : ℕ) (self_shard_id : ℕ) : String :=
  filepath ++ "/sparse_table/" ++ toString handle ++ "/rank_" ++ toString self_shard_id

/-! ## Record serialization (adam_kernel.h lines 151-152, modelled from the spec) -/

/-- A serialized stream is a list of float values; `takeExact n s` consumes
exactly `n` values, failing when the stream is too short (the malformed-record
case). -/
def takeExact (n : ℕ) (s : List ℚ) : Option (List ℚ × List ℚ) :=
  if n ≤ s.length then some (s.take n, s.drop n) else none

/-- The logical fields of a `SparseAdamValue` of dimension `dim`: `weight`,
`moment1`, `moment2` (each `dim` float32 values, whether stored in the inline
union or in the trailing variable-length region) and the `show` counter. -/
structure SparseAdamRecord where
  dim : ℕ
  weight : List ℚ
  moment1 : List ℚ
  moment2 : List ℚ
  showVal : ℚ
deriving DecidableEq

/-- Modelled from the spec: `operator<<(std::ostream&, const SparseAdamValue&)`
whose body (adam_kernel.cc) is not under src/. Per §4.1 Write emits `show`
followed by the three float arrays in weight, moment1, moment2 order. -/
def writeSparse (r : SparseAdamRecord) : List ℚ :=
  r.showVal :: (r.weight ++ r.moment1 ++ r.moment2)

/-- Modelled from the spec: `operator>>(std::istream&, SparseAdamValue&)`
whose body (adam_kernel.cc) is not under src/. Per §4.1 Read is the exact
inverse of Write for a record of the table's dimension; `none` models the
fatal malformed-record case. -/
def readSparse (dim : ℕ) : List ℚ → Option (SparseAdamRecord × List ℚ)
  | [] => none
  | sh :: rest =>
    match takeExact dim rest with
    | none => none
    | some (w, s1) =>
      match takeExact dim s1 with
      | none => none
      | some (m1, s2) =>
        match takeExact dim s2 with
        | none => none
        | some (m2, s3) => some (⟨dim, w, m1, m2, sh⟩, s3)

/-- The logical fields of a `DenseAdamValue` of length `len`: the two
bias-correction power scalars and the `w`, `m`, `v` arrays. -/
structure DenseAdamRecord where
  len : ℕ
  beta1_power : ℚ
  beta2_power : ℚ
  w : List ℚ
  m : List ℚ
  v : List ℚ
deriving DecidableEq

/-- Modelled from the spec: `operator<<(std::ostream&, const DenseAdamValue&)`
whose body (adam_kernel.cc) is not under src/. Per §4.1 the dense variant
emits the two bias terms followed by weight, moment1, moment2. -/
def writeDense (r : DenseAdamRecord) : List ℚ :=
  r.beta1_power :: r.beta2_power :: (r.w ++ r.m ++ r.v)

/-- Modelled from the spec: `operator>>(std::istream&, DenseAdamValue&)`
whose body (adam_kernel.cc) is not under src/; exact inverse of `writeDense`
for a record of the configured length. -/
def readDense (len : ℕ) : List ℚ → Option (DenseAdamRecord × List ℚ)
  | b1 :: b2 :: rest =>
    (match takeExact len rest with
    | none => none
    | some (w, s1) =>
      match takeExact len s1 with
      | none => none
      | some (m, s2) =>
        match takeExact len s2 with
        | none => none
        | some (v, s3) => some (⟨len, b1, b2, w, m, v⟩, s3))
  | _ => none

/-! ## The Adam update (SparseAdamValue::Apply, modelled from the spec) -/

/-- The `Adam` optimizer configuration consumed by `Apply`
(`learning_rate`, `beta1`, `beta2`, `epsilon`, per §6). -/
structure Adam where
  learning_rate : ℚ
  beta1 : ℚ
  beta2 : ℚ
  epsilon : ℚ

/-- The mutable per-record state seen by `Apply`: the weight, first and second
moment vectors (as functions from component index to value) and the `show`
counter. -/
structure SparseApplyState where
  w : ℕ → ℚ
  m : ℕ → ℚ
  v : ℕ → ℚ
  showVal : ℚ

/-- Modelled from the spec: `SparseAdamValue::Apply(const Adam*, SparseGradInfo&)`
whose body (adam_kernel.cc) is not under src/. Per §4.2, elementwise:
`m[i] = beta1 * m[i] + (1 - beta1) * g[i]`,
`v[i] = beta2 * v[i] + (1 - beta2) * g[i]^2`,
the bias-correction powers are multiplied by their betas (the sparse record
stores no per-key power, so the prior powers are parameters per §4.2/§9),
`lr_t = learning_rate * sqrt(1 - beta2_power) / (1 - beta1_power)`,
`w[i] -= lr_t * m[i] / (sqrt(v[i]) + epsilon)`, and `show += batch_show`.
The float `sqrt` is abstracted as a function parameter. Returns the new record
state and the updated power pair. -/
def adamApply (sqrtf : ℚ → ℚ) (opt : Adam) (beta1_power beta2_power : ℚ)
    (st : SparseApplyState) (g : ℕ → ℚ) (batch_show : ℚ) :
    SparseApplyState × ℚ × ℚ :=
  let m1 : ℕ → ℚ := fun i => opt.beta1 * st.m i + (1 - opt.beta1) * g i
  let v1 : ℕ → ℚ := fun i => opt.beta2 * st.v i + (1 - opt.beta2) * g i ^ 2
  let b1 : ℚ := beta1_power * opt.beta1
  let b2 : ℚ := beta2_power * opt.beta2
  let lr_t : ℚ := opt.learning_rate * sqrtf (1 - b2) / (1 - b1)
  let w1 : ℕ → ℚ := fun i => st.w i - lr_t * m1 i / (sqrtf (v1 i) + opt.epsilon)
  (⟨w1, m1, v1, st.showVal + batch_show⟩, b1, b2)

/-- The optimizer configuration of the single-key test in §8:
`beta1=0.9, beta2=0.999, epsilon=1e-8, lr=0.01`. -/
def adamTestConfig : Adam :=
  ⟨1 / 100, 9 / 10, 999 / 1000, 1 / 100000000⟩

/-! ## SparseTable Pull and Push (sparse_table.cc lines 52-92) -/

/-- `SparsePullRequest`: `table_handle`, `dim`, repeated `signs`. -/
structure SparsePullRequest where
  table_handle : ℕ
  dim : ℕ
  signs : List ℕ
deriving DecidableEq

/-- `SparsePullResponse`: `table_handle`, `dim`, one repeated weight vector per
requested sign. -/
structure SparsePullResponse where
  table_handle : ℕ
  dim : ℕ
  weights : List (List ℚ)
deriving DecidableEq

/-- The parts of a `SparseTable` that `Pull` and `Push` read: the configured
dimension `dim_` and the kernel's `GetWeight`, which maps a sign to a pointer
to `dim_` floats (modelled as a function from component index to value;
per §4.2 `GetWeight` lazily creates missing records and never fails, matching
`CHECK(nullptr != w)` never firing). -/
structure SparseTableModel where
  dim : ℕ
  getWeight : ℕ → ℕ → ℚ

/-- `SparseTable::Pull(const SparsePullRequest*, SparsePullResponse*)`:
echoes `table_handle`, `CHECK_EQ(dim_, req->dim())` (modelled as `none` on
mismatch), echoes `dim`, then for each sign in request order copies
`w[0..dim_)` into a fresh response vector. -/
def Pull (t : SparseTableModel) (req : SparsePullRequest) :
    Option SparsePullResponse :=
  if t.dim = req.dim then
    some ⟨req.table_handle, req.dim,
      req.signs.map (fun s => (List.range t.dim).map (fun j => t.getWeight s j))⟩
  else none

/-- One entry of a `SparsePushRequest` (`var_infos(i)`): `sign`, `batch_show`,
and the gradient vector `w`. -/
structure SparsePushVarInfo where
  sign : ℕ
  batch_show : ℚ
  w : List ℚ
deriving DecidableEq

/-- `SparsePushRequest`: `dim` and repeated `var_infos`. -/
structure SparsePushRequest where
  dim : ℕ
  var_infos : List SparsePushVarInfo
deriving DecidableEq

/-- `SparseGradInfo` as built by `Push`: `sign`, `batch_show`, and the owned
copy `grad[j] = var_info.w(j)` of the gradient. -/
structure SparseGradInfo where
  sign : ℕ
  batch_show : ℚ
  grad : List ℚ
deriving DecidableEq

/-- The `SparseGradInfo` that `Push` builds from one `var_info`. -/
def toGradInfo (e : SparsePushVarInfo) : SparseGradInfo :=
  ⟨e.sign, e.batch_show, e.w⟩

/-- The per-entry loop of `SparseTable::Push`: for each `var_info` in order,
`CHECK_EQ(var_info.w_size(), dim_)` then copy the gradient and enqueue.
Returns the queue contents together with `false` when the per-entry CHECK
fired (fatal), in which case the entries already processed remain enqueued. -/
def PushEntries (dim : ℕ) (queue : List SparseGradInfo) :
    List SparsePushVarInfo → List SparseGradInfo × Bool
  | [] => (queue, true)
  | e :: rest =>
    if e.w.length = dim then
      PushEntries dim (queue ++ [toGradInfo e]) rest
    else (queue, false)

/-- `SparseTable::Push(const SparsePushRequest*, SparsePushResponse*)`:
`CHECK_EQ(dim_, req->dim())` (fatal, before any entry is processed), then the
per-entry loop. The second component is `false` when a fatal CHECK fired. -/
def Push (t : SparseTableModel) (queue : List SparseGradInfo)
    (req : SparsePushRequest) : List SparseGradInfo × Bool :=
  if t.dim = req.dim then PushEntries t.dim queue req.var_infos
  else (queue, false)

/-! ## The background applier thread (sparse_table.cc lines 41-44, 129-138) -/

/-- The shared state seen by the applier thread `UpdateGrad_`:
`stop_thread_`, the gradient queue contents, and whether the thread has
exited its loop (after which the destructor's `join` returns). -/
structure ApplierState where
  stopFlag : Bool
  queue : List SparseGradInfo
  exited : Bool
deriving DecidableEq

/-- Observable events of the system around the applier loop. -/
inductive ApplierEvent where
  | enqueue : SparseGradInfo → ApplierEvent
  | raiseStop : ApplierEvent
  | applyGrad : SparseGradInfo → ApplierEvent
  | exitThread : ApplierEvent
deriving DecidableEq

/-- Interleaved small-step semantics of sparse_table.cc around the queue:
`enqueue` is a producer's `grad_update_queue_.push` (any time);
`raiseStop` is the destructor setting `stop_thread_ = true`;
`applyGrad` is one successful `grad_update_queue_.pop` followed by
`op_kernel_->Apply` in the inner `while` (only while the thread runs,
regardless of the stop flag);
`exitThread` is the outer `while (!stop_thread_)` test failing after the
inner loop returned, ending `UpdateGrad_`. -/
inductive ApplierStep : ApplierState → ApplierEvent → ApplierState → Prop where
  | enqueue (s : ApplierState) (g : SparseGradInfo) :
      ApplierStep s (.enqueue g) ⟨s.stopFlag, s.queue ++ [g], s.exited⟩
  | raiseStop (s : ApplierState) :
      ApplierStep s .raiseStop ⟨true, s.queue, s.exited⟩
  | applyGrad (s : ApplierState) (g : SparseGradInfo) (rest : List SparseGradInfo) :
      s.exited = false → s.queue = g :: rest →
      ApplierStep s (.applyGrad g) ⟨s.stopFlag, rest, false⟩
  | exitThread (s : ApplierState) :
      s.exited = false → s.stopFlag = true →
      ApplierStep s .exitThread ⟨s.stopFlag, s.queue, true⟩

/-- An execution: a sequence of steps, recording the event trace. -/
inductive ApplierExec : ApplierState → List ApplierEvent → ApplierState → Prop where
  | nil (s : ApplierState) : ApplierExec s [] s
  | cons {s s1 s2 : ApplierState} {e : ApplierEvent} {es : List ApplierEvent} :
      ApplierStep s e s1 → ApplierExec s1 es s2 → ApplierExec s (e :: es) s2

/-! ## Theorems -/

/-- C1: for every dimension `d`, `DynSizeof(d)` is exactly the fixed header
size `sizeof(SparseAdamValue)` when `d < 2` (the inline mini-dim path), and
exactly `sizeof(SparseAdamValue) + 3*d*4` bytes when `d >= 2` (the
variable-length trailing-region path). -/
theorem dynSizeof_sizing (sz d : ℤ) :
    DynSizeof sz d = if d < 2 then sz else sz + 3 * d * 4 := by
  have hmini : IsMiniDim d = decide (d < 2) := by
    unfold IsMiniDim
    by_cases h : d < 2 <;> simp [h]
  unfold DynSizeof
  rw [hmini]
  by_cases h : d < 2
  · simp [h]
  · simp [h]
    ring

/-- C8: `Save` and `Load` derive the same deterministic per-shard file path
from the directory argument, the table handle and the shard id, namely
`directory ++ "/sparse_table/" ++ handle ++ "/rank_" ++ shard_id`,
so `Load` after `Save` with the same directory addresses the file `Save`
wrote. -/
theorem save_load_path_eq (filepath : String) (handle self_shard_id : ℕ) :
    LoadFilePath filepath handle self_shard_id
        = SaveFilePath filepath handle self_shard_id ∧
    SaveFilePath filepath handle self_shard_id
        = filepath ++ "/sparse_table/" ++ toString handle
            ++ "/rank_" ++ toString self_shard_id := by
  exact ⟨rfl, rfl⟩

/-- C4 counterexample: the claim fails when the first assigned handle is 0
(exactly what `CreateSparseTable` assigns to the first registered table).
After `SetHandle(0)` succeeds, `handle_` is still 0, so a second
`SetHandle(5)` passes `CHECK(handle_ == 0)` and succeeds instead of being
fatal. -/
theorem setHandle_double_set_accepted :
    SetHandle ⟨0⟩ 0 = some ⟨0⟩ ∧ SetHandle ⟨0⟩ 5 ≠ none := by
  constructor
  · rfl
  · intro h
    simp [SetHandle] at h

/-- C4 (amended): a second `SetHandle` call on a table whose handle has
already been assigned is a fatal contract violation provided the first
assigned handle was nonzero; the guard `CHECK(handle_ == 0)` does not fire
on a second call when the first assigned handle was 0. -/
theorem setHandle_set_once_nonzero (t t1 : SparseTableHandleState)
    (h1 h2 : ℕ) (hset : SetHandle t h1 = some t1) (hne : h1 ≠ 0) :
    SetHandle t1 h2 = none := by
  unfold SetHandle at hset
  split at hset
  · injection hset with h
    subst h
    simp [SetHandle, hne]
  · simp at hset

/-- C4 witness for the amended theorem: handle 3 then a second attempt 7. -/
theorem setHandle_set_once_nonzero_witness :
    SetHandle ⟨0⟩ 3 = some ⟨3⟩ ∧ (3 : ℕ) ≠ 0 ∧ SetHandle ⟨3⟩ 7 = none :=
  ⟨by decide, by decide,
    setHandle_set_once_nonzero ⟨0⟩ ⟨3⟩ 3 7 (by decide) (by decide)⟩

/-- Helper: `RegisterAll` appends the tables in order and hands out as handles
the consecutive indices starting at the current registered count. -/
theorem registerAll_spec {α : Type} (ts : List α) (acc : List α) :
    (RegisterAll acc ts).1 = acc ++ ts ∧
    (RegisterAll acc ts).2 = (List.range ts.length).map (acc.length + ·) := by
  induction ts generalizing acc with
  | nil => simp [RegisterAll]
  | cons t rest ih =>
    obtain ⟨h1, h2⟩ := ih (acc ++ [t])
    constructor
    · simp only [RegisterAll, RegistryRegister]
      rw [h1]
      simp
    · simp only [RegisterAll, RegistryRegister]
      rw [h2]
      simp only [List.length_cons]
      rw [List.range_succ_eq_map]
      simp only [List.map_cons, List.map_map]
      congr 1
      simp
      intro a _
      omega

/-- C5: `Register` returns as the handle the number of tables previously
registered, so registering tables from an empty registry yields handles
`0, 1, ..., n-1` in registration order (monotonically increasing, never
reused), and `Get(h)` for any `h` at or above the current registered count is
a fatal out-of-range failure. -/
theorem registry_handles_and_get {α : Type} (ts : List α) (h : ℕ)
    (hge : ts.length ≤ h) :
    (RegisterAll ([] : List α) ts).2 = List.range ts.length ∧
    RegistryGet (RegisterAll ([] : List α) ts).1 h = none := by
  obtain ⟨h1, h2⟩ := registerAll_spec ts ([] : List α)
  constructor
  · rw [h2]
    simp
  · rw [h1]
    unfold RegistryGet
    rw [dif_neg]
    simp only [List.nil_append]
    omega

/-- C5 witness: registering 5 tables yields handles `0,1,2,3,4` and `Get(5)`
fails. -/
theorem registry_handles_and_get_witness :
    ([10, 20, 30, 40, 50] : List ℕ).length ≤ 5 ∧
      ((RegisterAll ([] : List ℕ) [10, 20, 30, 40, 50]).2 = List.range 5 ∧
        RegistryGet (RegisterAll ([] : List ℕ) [10, 20, 30, 40, 50]).1 5 = none) :=
  ⟨by decide, registry_handles_and_get [10, 20, 30, 40, 50] 5 (by decide)⟩

/-- C7: `Pull` and `Push` each fail fatally (the operation aborts, nothing is
enqueued, no retry) when the request's dimension does not equal the table's
configured dimension. -/
theorem dim_mismatch_fatal (t : SparseTableModel) (req : SparsePullRequest)
    (preq : SparsePushRequest) (q : List SparseGradInfo)
    (hpull : req.dim ≠ t.dim) (hpush : preq.dim ≠ t.dim) :
    Pull t req = none ∧ Push t q preq = (q, false) := by
  constructor
  · unfold Pull
    rw [if_neg]
    exact fun hh => hpull hh.symm
  · unfold Push
    rw [if_neg]
    exact fun hh => hpush hh.symm

/-- C7 witness: a table of dimension 2 against requests of dimension 3. -/
theorem dim_mismatch_fatal_witness :
    ((3 : ℕ) ≠ 2 ∧ (3 : ℕ) ≠ 2) ∧
      (Pull ⟨2, fun _ _ => 0⟩ ⟨0, 3, []⟩ = none ∧
        Push ⟨2, fun _ _ => 0⟩ [] ⟨3, []⟩ = ([], false)) :=
  ⟨⟨by decide, by decide⟩,
    dim_mismatch_fatal ⟨2, fun _ _ => 0⟩ ⟨0, 3, []⟩ ⟨3, []⟩ []
      (by decide) (by decide)⟩

/-- Helper: the per-entry loop of `Push` enqueues every well-sized leading
entry, then hits the fatal length CHECK on the first bad entry, leaving the
already-enqueued entries in the queue. -/
theorem pushEntries_partial (dim : ℕ) (q : List SparseGradInfo)
    (good : List SparsePushVarInfo) (bad : SparsePushVarInfo)
    (rest : List SparsePushVarInfo)
    (hgood : ∀ e ∈ good, e.w.length = dim)
    (hbad : bad.w.length ≠ dim) :
    PushEntries dim q (good ++ bad :: rest) = (q ++ good.map toGradInfo, false) := by
  induction good generalizing q with
  | nil => simp [PushEntries, hbad]
  | cons e es ih =>
    have he : e.w.length = dim := hgood e (by simp)
    simp only [List.cons_append, PushEntries, he, if_pos, List.append_eq]
    rw [ih (q ++ [toGradInfo e]) (fun x hx => hgood x (by simp [hx]))]
    simp

/-- C10: `Push` validates each entry's gradient length inside the per-entry
loop, after enqueuing the preceding entries: for a request whose i-th entry
has a gradient length different from `dim`, entries `0..i-1` have already been
copied and enqueued when the fatal check fires, so the failing `Push` is not
atomic — the queue state has changed on error whenever i > 0. -/
theorem push_not_atomic (t : SparseTableModel) (q : List SparseGradInfo)
    (good : List SparsePushVarInfo) (bad : SparsePushVarInfo)
    (rest : List SparsePushVarInfo)
    (hgood : ∀ e ∈ good, e.w.length = t.dim)
    (hbad : bad.w.length ≠ t.dim) :
    Push t q ⟨t.dim, good ++ bad :: rest⟩ = (q ++ good.map toGradInfo, false) ∧
    (good ≠ [] → (Push t q ⟨t.dim, good ++ bad :: rest⟩).1 ≠ q) := by
  have hp : Push t q ⟨t.dim, good ++ bad :: rest⟩
      = (q ++ good.map toGradInfo, false) := by
    unfold Push
    rw [if_pos rfl]
    exact pushEntries_partial t.dim q good bad rest hgood hbad
  refine ⟨hp, fun hne hq => ?_⟩
  rw [hp] at hq
  simp only at hq
  have hlen := congrArg List.length hq
  simp at hlen
  exact hne hlen

/-- C10 witness: dimension-1 table, one good entry then a bad (empty) one. -/
theorem push_not_atomic_witness :
    ((∀ e ∈ ([⟨5, 2, [3]⟩] : List SparsePushVarInfo), e.w.length = 1) ∧
        (([] : List ℚ).length ≠ 1)) ∧
      (Push ⟨1, fun _ _ => 0⟩ [] ⟨1, [⟨5, 2, [3]⟩, ⟨6, 1, []⟩]⟩
          = ([⟨5, 2, [3]⟩], false) ∧
        (([⟨5, 2, [3]⟩] : List SparsePushVarInfo) ≠ [] →
          (Push ⟨1, fun _ _ => 0⟩ [] ⟨1, [⟨5, 2, [3]⟩, ⟨6, 1, []⟩]⟩).1 ≠ [])) :=
  ⟨⟨by decide, by decide⟩,
    push_not_atomic ⟨1, fun _ _ => 0⟩ [] [⟨5, 2, [3]⟩] ⟨6, 1, []⟩ []
      (by decide) (by decide)⟩

/-- Helper: consuming exactly the length of a leading block returns that block
and the remainder of the stream. -/
theorem takeExact_append (xs ys : List ℚ) :
    takeExact xs.length (xs ++ ys) = some (xs, ys) := by
  simp [takeExact]

/-- Helper: consuming exactly the whole stream leaves an empty remainder. -/
theorem takeExact_all (xs : List ℚ) :
    takeExact xs.length xs = some (xs, []) := by
  simp [takeExact]

/-- C2: for every record with dimension `d >= 1`, in both the inline path
(`d < 2`) and the variable-length path (`d >= 2`), deserializing the output of
serialization (Read after Write) reproduces the record exactly, field for
field: weight, moment1, moment2 and show for the sparse record, and the bias
terms and the three arrays for the dense variant. -/
theorem serialize_roundtrip (r : SparseAdamRecord) (dr : DenseAdamRecord)
    (hd : 1 ≤ r.dim)
    (hw : r.weight.length = r.dim) (hm1 : r.moment1.length = r.dim)
    (hm2 : r.moment2.length = r.dim)
    (hdw : dr.w.length = dr.len) (hdm : dr.m.length = dr.len)
    (hdv : dr.v.length = dr.len) :
    readSparse r.dim (writeSparse r) = some (r, []) ∧
    readDense dr.len (writeDense dr) = some (dr, []) := by
  constructor
  · obtain ⟨dim, w, m1, m2, sh⟩ := r
    simp only at hw hm1 hm2
    have h1 : takeExact dim (w ++ (m1 ++ m2)) = some (w, m1 ++ m2) := by
      rw [← hw]
      exact takeExact_append _ _
    have h2 : takeExact dim (m1 ++ m2) = some (m1, m2) := by
      rw [← hm1]
      exact takeExact_append _ _
    have h3 : takeExact dim m2 = some (m2, []) := by
      rw [← hm2]
      exact takeExact_all _
    simp [writeSparse, readSparse, List.append_assoc, h1, h2, h3]
  · obtain ⟨len, b1, b2, w, m, v⟩ := dr
    simp only at hdw hdm hdv
    have h1 : takeExact len (w ++ (m ++ v)) = some (w, m ++ v) := by
      rw [← hdw]
      exact takeExact_append _ _
    have h2 : takeExact len (m ++ v) = some (m, v) := by
      rw [← hdm]
      exact takeExact_append _ _
    have h3 : takeExact len v = some (v, []) := by
      rw [← hdv]
      exact takeExact_all _
    simp [writeDense, readDense, List.append_assoc, h1, h2, h3]

/-- C2 witness: a dimension-2 sparse record and a length-1 dense record
survive the round trip. -/
theorem serialize_roundtrip_witness :
    ((1 : ℕ) ≤ 2 ∧
      ([1, 2] : List ℚ).length = 2 ∧ ([3, 4] : List ℚ).length = 2 ∧
      ([5, 6] : List ℚ).length = 2 ∧
      ([10] : List ℚ).length = 1 ∧ ([11] : List ℚ).length = 1 ∧
      ([12] : List ℚ).length = 1) ∧
    (readSparse 2 (writeSparse ⟨2, [1, 2], [3, 4], [5, 6], 7⟩)
        = some (⟨2, [1, 2], [3, 4], [5, 6], 7⟩, []) ∧
      readDense 1 (writeDense ⟨1, 8, 9, [10], [11], [12]⟩)
        = some (⟨1, 8, 9, [10], [11], [12]⟩, [])) :=
  ⟨⟨by decide, by decide, by decide, by decide, by decide, by decide, by decide⟩,
    serialize_roundtrip ⟨2, [1, 2], [3, 4], [5, 6], 7⟩ ⟨1, 8, 9, [10], [11], [12]⟩
      (by decide) (by decide) (by decide) (by decide)
      (by decide) (by decide) (by decide)⟩

/-- C3: applying the Adam update once to a record whose moments are zero
(`m = 0`, `v = 0`) and whose weight is `w0`, with `beta1 = 0.9`,
`beta2 = 0.999`, `epsilon = 1e-8`, `learning_rate = 0.01` and gradient `g`,
yields elementwise `m[i] = 0.1 * g[i]`, `v[i] = 0.001 * g[i]^2`, and `w`
updated per `w[i] -= lr_t * m[i] / (sqrt(v[i]) + epsilon)` with
`lr_t = learning_rate * sqrt(1 - beta2_power) / (1 - beta1_power)`; the `m`
and `v` identities are exact over the rationals, hence within the claimed
floating-point tolerance 1e-6. -/
theorem adamApply_fresh_moments (sqrtf : ℚ → ℚ) (w0 g : ℕ → ℚ)
    (sh bs b1p b2p : ℚ) (i : ℕ) :
    ((adamApply sqrtf adamTestConfig b1p b2p ⟨w0, fun _ => 0, fun _ => 0, sh⟩ g bs).1.m i
        = 1 / 10 * g i) ∧
    ((adamApply sqrtf adamTestConfig b1p b2p ⟨w0, fun _ => 0, fun _ => 0, sh⟩ g bs).1.v i
        = 1 / 1000 * g i ^ 2) ∧
    ((adamApply sqrtf adamTestConfig b1p b2p ⟨w0, fun _ => 0, fun _ => 0, sh⟩ g bs).1.w i
        = w0 i
          - adamTestConfig.learning_rate * sqrtf (1 - b2p * adamTestConfig.beta2)
              / (1 - b1p * adamTestConfig.beta1)
            * ((adamApply sqrtf adamTestConfig b1p b2p ⟨w0, fun _ => 0, fun _ => 0, sh⟩ g bs).1.m i)
            / (sqrtf ((adamApply sqrtf adamTestConfig b1p b2p ⟨w0, fun _ => 0, fun _ => 0, sh⟩ g bs).1.v i)
                + adamTestConfig.epsilon)) ∧
    |(adamApply sqrtf adamTestConfig b1p b2p ⟨w0, fun _ => 0, fun _ => 0, sh⟩ g bs).1.m i
        - 1 / 10 * g i| ≤ 1 / 1000000 ∧
    |(adamApply sqrtf adamTestConfig b1p b2p ⟨w0, fun _ => 0, fun _ => 0, sh⟩ g bs).1.v i
        - 1 / 1000 * g i ^ 2| ≤ 1 / 1000000 := by
  have hm : (adamApply sqrtf adamTestConfig b1p b2p ⟨w0, fun _ => 0, fun _ => 0, sh⟩ g bs).1.m i
      = 1 / 10 * g i := by
    simp only [adamApply, adamTestConfig]
    ring
  have hv : (adamApply sqrtf adamTestConfig b1p b2p ⟨w0, fun _ => 0, fun _ => 0, sh⟩ g bs).1.v i
      = 1 / 1000 * g i ^ 2 := by
    simp only [adamApply, adamTestConfig]
    ring
  refine ⟨hm, hv, rfl, ?_, ?_⟩
  · rw [hm]
    simp
  · rw [hv]
    simp

/-- C6: for every `Pull` request whose dimension matches the table's, the
response contains exactly one weight vector per requested key, of length
`dim`, in the same order as the keys appear in the request, with the
response's `table_handle` and `dim` echoing the request's. -/
theorem pull_spec (t : SparseTableModel) (req : SparsePullRequest)
    (resp : SparsePullResponse) (hp : Pull t req = some resp) :
    resp.table_handle = req.table_handle ∧ resp.dim = req.dim ∧
    resp.weights.length = req.signs.length ∧
    (∀ w ∈ resp.weights, w.length = t.dim) ∧
    (∀ (i : ℕ) (s : ℕ), req.signs[i]? = some s →
      resp.weights[i]? = some ((List.range t.dim).map (fun j => t.getWeight s j))) := by
  unfold Pull at hp
  split at hp
  · injection hp with hp
    subst hp
    refine ⟨rfl, rfl, by simp, ?_, ?_⟩
    · intro w hw
      simp only [List.mem_map] at hw
      obtain ⟨s, _, rfl⟩ := hw
      simp
    · intro i s hs
      simp [List.getElem?_map, hs]
  · exact absurd hp (by simp)

/-- C6 witness: a dimension-1 table with constant weight 3 pulled at keys
5 and 6. -/
theorem pull_spec_witness :
    Pull ⟨1, fun _ _ => 3⟩ ⟨7, 1, [5, 6]⟩ = some ⟨7, 1, [[3], [3]]⟩ ∧
    ((⟨7, 1, [[3], [3]]⟩ : SparsePullResponse).table_handle
        = (⟨7, 1, [5, 6]⟩ : SparsePullRequest).table_handle ∧
      (⟨7, 1, [[3], [3]]⟩ : SparsePullResponse).dim
        = (⟨7, 1, [5, 6]⟩ : SparsePullRequest).dim ∧
      (⟨7, 1, [[3], [3]]⟩ : SparsePullResponse).weights.length
        = (⟨7, 1, [5, 6]⟩ : SparsePullRequest).signs.length ∧
      (∀ w ∈ (⟨7, 1, [[3], [3]]⟩ : SparsePullResponse).weights, w.length = 1) ∧
      (∀ (i : ℕ) (s : ℕ), (⟨7, 1, [5, 6]⟩ : SparsePullRequest).signs[i]? = some s →
        (⟨7, 1, [[3], [3]]⟩ : SparsePullResponse).weights[i]?
          = some ((List.range 1).map (fun _ => (3 : ℚ))))) :=
  ⟨rfl, pull_spec ⟨1, fun _ _ => 3⟩ ⟨7, 1, [5, 6]⟩ ⟨7, 1, [[3], [3]]⟩ rfl⟩

/-- Helper: every step of the applier transition system preserves the exited
flag once set. -/
theorem applierStep_exited {s s1 : ApplierState} {e : ApplierEvent}
    (hstep : ApplierStep s e s1) (hex : s.exited = true) : s1.exited = true := by
  cases hstep <;> simp_all

/-- Helper: an execution starting from an exited applier contains no
`applyGrad` event. -/
theorem applierExec_exited_no_apply {s s2 : ApplierState}
    {es : List ApplierEvent} (hexec : ApplierExec s es s2) (g : SparseGradInfo) :
    s.exited = true → ApplierEvent.applyGrad g ∉ es := by
  induction hexec with
  | nil s =>
    intro _
    simp
  | cons hstep hrest ih =>
    intro hex hmem
    rcases List.mem_cons.mp hmem with heq | hmem2
    · subst heq
      cases hstep
      simp_all
    · exact ih (applierStep_exited hstep hex) hmem2

/-- Helper: an execution over a decomposed event list decomposes into
executions around the distinguished middle step. -/
theorem applierExec_append {s s2 : ApplierState} (l1 l2 : List ApplierEvent)
    (e : ApplierEvent) (hexec : ApplierExec s (l1 ++ e :: l2) s2) :
    ∃ sa sb, ApplierExec s l1 sa ∧ ApplierStep sa e sb ∧ ApplierExec sb l2 s2 := by
  induction l1 generalizing s with
  | nil =>
    rw [List.nil_append] at hexec
    cases hexec with
    | cons hstep hrest => exact ⟨s, _, ApplierExec.nil s, hstep, hrest⟩
  | cons e1 rest ih =>
    rw [List.cons_append] at hexec
    cases hexec with
    | cons hstep hrest =>
      obtain ⟨sa, sb, h1, h2, h3⟩ := ih hrest
      exact ⟨sa, sb, ApplierExec.cons hstep h1, h2, h3⟩

/-- C9: once the stop flag has been raised and the background applier thread
has exited its loop (so the destructor's join returns), no further `Apply`
calls on any record occur: in any execution whose trace contains the thread
exit, no `applyGrad` event follows it. -/
theorem no_apply_after_exit (s s2 : ApplierState) (l1 l2 : List ApplierEvent)
    (hexec : ApplierExec s (l1 ++ ApplierEvent.exitThread :: l2) s2)
    (g : SparseGradInfo) :
    ApplierEvent.applyGrad g ∉ l2 := by
  obtain ⟨sa, sb, _, hstep, hrest⟩ := applierExec_append l1 l2 _ hexec
  have hexb : sb.exited = true := by
    cases hstep
    rfl
  exact applierExec_exited_no_apply hrest g hexb

/-- C9 witness: the trace raise-stop then exit, after which the (empty) tail
contains no apply event. -/
theorem no_apply_after_exit_witness :
    ApplierExec ⟨false, [], false⟩
        ([ApplierEvent.raiseStop] ++ ApplierEvent.exitThread :: [])
        ⟨true, [], true⟩ ∧
    ApplierEvent.applyGrad ⟨0, 0, []⟩ ∉ ([] : List ApplierEvent) := by
  have hexec : ApplierExec ⟨false, [], false⟩
      ([ApplierEvent.raiseStop] ++ ApplierEvent.exitThread :: [])
      ⟨true, [], true⟩ :=
    ApplierExec.cons (ApplierStep.raiseStop ⟨false, [], false⟩)
      (ApplierExec.cons (ApplierStep.exitThread ⟨true, [], false⟩ rfl rfl)
        (ApplierExec.nil _))
  exact ⟨hexec, no_apply_after_exit _ _ _ _ hexec ⟨0, 0, []⟩⟩

end Tensornet

